import Mathlib

/-!
# Verification of the finite-difference engine of `pennylane/_grad.py`

This file shallowly embeds the three operations of the finite-difference
engine — `finite_diff`, `_fd_first_order_centered` and
`_fd_second_order_centered` — and proves properties about them.

Modelling conventions:
* Machine floats become exact rationals `ℚ`; the user function's output
  lives in an arbitrary `ℚ`-module `α` (mirroring the "object"-dtype
  results, which may be composite numeric values).
* A numpy `ndarray` becomes `NDArray ℚ`: a shape together with row-major
  flat data given as a function `Nat → ℚ`.
* Python exceptions become an explicit error type `FDError`; each Python
  `raise` site gets its own constructor.  `Except FDError` models the
  fallible calls.
* Python's negative indexing/slicing of the `args` tuple is modelled by
  `pyGet` / `pySliceTo` / `pySliceFrom`, and numpy's multi-index
  resolution (including wrap-around of negative components and partial
  indexing with a short tuple, which addresses a whole block) by
  `resolveIdx` / `flatBase`.
-/

set_option maxHeartbeats 1000000

/-- The distinct failure modes of the engine.  Constructors tagged as value
errors carry the data interpolated into the Python message. -/
inductive FDError where
  /-- `ValueError: The value of 'argnum' has to be between 0 and {bound}; got {got}` -/
  | argnumError (bound : Int) (got : Int)
  /-- `ValueError: The value of the step size 'delta' has to be greater than 0; got {got}` -/
  | deltaError (got : ℚ)
  /-- `ValueError: Elements of 'idx' must be of lenght {expected}; got element ... with lenght {got}` -/
  | idxLenError (expected : Nat) (got : Nat)
  /-- `ValueError: Indices in 'idx' can not be greater than {bounds}; got {idx}` -/
  | idxBoundsError
  /-- `ValueError: The number of indices in 'idx' can not be greater than 2; got {got} indices` -/
  | numIdxError (got : Nat)
  /-- `ValueError: not enough values to unpack` raised by `i, j = idx`. -/
  | unpackError
  /-- `ValueError: 'i' must be an integer between 0 and {size - 1}; got {got}` -/
  | iRangeError (size : Nat) (got : Option Int)
  /-- numpy `IndexError`: index out of bounds on `shift[i] += ...`. -/
  | indexError
  /-- Python `ZeroDivisionError` from `delta ** -1` at `delta = 0`. -/
  | zeroDivisionError
deriving DecidableEq, Repr

/-- Whether the error is a Python `ValueError` (as opposed to an
`IndexError` or a `ZeroDivisionError`). -/
def FDError.isValueErr : FDError → Bool
  | .indexError => false
  | .zeroDivisionError => false
  | _ => true

/-- A numpy-style n-dimensional array: a shape and row-major flat data.
The data is total on `Nat`; only positions below `shape.prod` are
meaningful. -/
structure NDArray (α : Type) where
  shape : List Nat
  data : Nat → α

/-- `x.size`: total number of elements. -/
def NDArray.size (x : NDArray α) : Nat := x.shape.prod

/-- `x.ndim`: number of axes. -/
def NDArray.ndim (x : NDArray α) : Nat := x.shape.length

/-- Elementwise `+` of same-shaped arrays. -/
def NDArray.add [Add α] (x y : NDArray α) : NDArray α :=
  ⟨x.shape, fun k => x.data k + y.data k⟩

/-- Elementwise `-` of same-shaped arrays. -/
def NDArray.sub [Sub α] (x y : NDArray α) : NDArray α :=
  ⟨x.shape, fun k => x.data k - y.data k⟩

/-- `np.zeros_like(x)` (also with another dtype, as in `dtype="O"`). -/
def zerosLike [Zero β] (x : NDArray α) : NDArray β :=
  ⟨x.shape, fun _ => 0⟩

/-- numpy resolution of one index component `c` against an axis of size
`n`: non-negative components must be `< n`, negative components wrap
around and must be `≥ -n`. -/
def resolveIdx (n : Nat) (c : Int) : Option Nat :=
  if 0 ≤ c then
    if c < (n : Int) then some c.toNat else none
  else
    if 0 ≤ c + (n : Int) then some (c + (n : Int)).toNat else none

/-- Resolve a (possibly partial) multi-index tuple against a shape into
the starting flat offset and the number of addressed cells.  A
full-length tuple addresses a single cell (`count = 1`); a shorter tuple
addresses a whole sub-block (numpy partial indexing); a tuple longer
than the shape, or with an unresolvable component, is an `IndexError`
(`none`). -/
def flatBase : List Nat → List Int → Option (Nat × Nat)
  | shape, [] => some (0, shape.prod)
  | [], _ :: _ => none
  | n :: ns, c :: cs =>
    match resolveIdx n c, flatBase ns cs with
    | some r, some (b, sz) => some (r * ns.prod + b, sz)
    | _, _ => none

/-- `a[t] += v` on the block `sc = (start, count)` returned by `flatBase`. -/
def addAt [Add α] (a : NDArray α) (sc : Nat × Nat) (v : α) : NDArray α :=
  ⟨a.shape, fun k => if sc.1 ≤ k ∧ k < sc.1 + sc.2 then a.data k + v else a.data k⟩

/-- `a[t] = v` on the block `sc = (start, count)` returned by `flatBase`. -/
def setAt (a : NDArray α) (sc : Nat × Nat) (v : α) : NDArray α :=
  ⟨a.shape, fun k => if sc.1 ≤ k ∧ k < sc.1 + sc.2 then v else a.data k⟩

/-- Python `l[k]` with negative-index wrap-around; `none` is an
`IndexError`. -/
def pyGet (l : List β) (k : Int) : Option β :=
  if 0 ≤ k then l.get? k.toNat
  else if 0 ≤ k + (l.length : Int) then l.get? (k + (l.length : Int)).toNat
  else none

/-- Python `l[:k]` (negative `k` counts from the end; clamped). -/
def pySliceTo (l : List β) (k : Int) : List β :=
  if 0 ≤ k then l.take k.toNat else l.take (k + (l.length : Int)).toNat

/-- Python `l[k:]` (negative `k` counts from the end; clamped). -/
def pySliceFrom (l : List β) (k : Int) : List β :=
  if 0 ≤ k then l.drop k.toNat else l.drop (k + (l.length : Int)).toNat

/-- `f(*args[:argnum], x', *args[argnum + 1:], **kwargs)`: the positional
argument list passed to the user function, with the argument at
`argnum` replaced by `x'`. -/
def callArgs (args : List (NDArray ℚ)) (argnum : Int) (x' : NDArray ℚ) :
    List (NDArray ℚ) :=
  pySliceTo args argnum ++ x' :: pySliceFrom args (argnum + 1)

/-- `(np.array(_idx) > bounds).any()` with `bounds = np.array(shape) - 1`. -/
def anyGtBounds (shape : List Nat) (t : List Int) : Bool :=
  (t.zip shape).any fun p => decide ((p.2 : Int) - 1 < p.1)

/-- The per-element validation loop over a user-supplied `idx`: each
element must have length `ndim` and no component greater than its axis
bound.  Returns the first error, if any. -/
def validateIdx (ndim : Nat) (shape : List Nat) : List (List Int) → Option FDError
  | [] => none
  | t :: rest =>
    if t.length ≠ ndim then some (FDError.idxLenError ndim t.length)
    else if anyGtBounds shape t then some FDError.idxBoundsError
    else validateIdx ndim shape rest

/-- `list(np.ndindex(*shape))`: all full-length multi-indices of `shape`
in row-major order. -/
def ndindex : List Nat → List (List Int)
  | [] => [[]]
  | n :: ns => (List.range n).flatMap fun k => (ndindex ns).map fun t => ((k : Int) :: t)

/-- The body of the evaluation loop of `_fd_first_order_centered`:
for each index tuple, build the `±delta/2` shift, evaluate `f` twice and
store the centered difference in the gradient container. -/
def fdFirstLoop {α K : Type} [AddCommGroup α] [Module ℚ α]
    (f : List (NDArray ℚ) → K → α) (argnum : Int) (delta : ℚ)
    (args : List (NDArray ℚ)) (kwargs : K) (x : NDArray ℚ) :
    List (List Int) → NDArray α → Except FDError (NDArray α)
  | [], grad => Except.ok grad
  | t :: rest, grad =>
    match flatBase x.shape t with
    | none => Except.error FDError.indexError
    | some sc =>
      let shift : NDArray ℚ := addAt (zerosLike x) sc ((1/2 : ℚ) * delta)
      let val : α := delta⁻¹ •
        (f (callArgs args argnum (x.add shift)) kwargs
          - f (callArgs args argnum (x.sub shift)) kwargs)
      fdFirstLoop f argnum delta args kwargs x rest (setAt grad sc val)

/-- Embedding of `_fd_first_order_centered(f, argnum, delta, *args,
idx=None, **kwargs)`. -/
def fd_first_order_centered {α K : Type} [AddCommGroup α] [Module ℚ α]
    (f : List (NDArray ℚ) → K → α) (argnum : Int) (delta : ℚ)
    (args : List (NDArray ℚ)) (kwargs : K)
    (idx? : Option (List (List Int))) : Except FDError (NDArray α) :=
  if argnum > (args.length : Int) - 1 then
    Except.error (FDError.argnumError ((args.length : Int) - 1) argnum)
  else if delta ≤ 0 then
    Except.error (FDError.deltaError delta)
  else
    match pyGet args argnum with
    | none => Except.error FDError.indexError
    | some x =>
      match idx? with
      | none =>
        fdFirstLoop f argnum delta args kwargs x (ndindex x.shape) (zerosLike x)
      | some idx =>
        match validateIdx x.ndim x.shape idx with
        | some e => Except.error e
        | none => fdFirstLoop f argnum delta args kwargs x idx (zerosLike x)

/-- Embedding of `_fd_second_order_centered(f, argnum, delta, *args,
idx=None, **kwargs)`. -/
def fd_second_order_centered {α K : Type} [AddCommGroup α] [Module ℚ α]
    (f : List (NDArray ℚ) → K → α) (argnum : Int) (delta : ℚ)
    (args : List (NDArray ℚ)) (kwargs : K)
    (idx? : Option (List (List Int))) : Except FDError α :=
  if argnum > (args.length : Int) - 1 then
    Except.error (FDError.argnumError ((args.length : Int) - 1) argnum)
  else if delta ≤ 0 then
    Except.error (FDError.deltaError delta)
  else
    match pyGet args argnum with
    | none => Except.error FDError.indexError
    | some x =>
      let checked : Except FDError (List (List Int)) :=
        match idx? with
        | none => Except.ok [[], []]
        | some idx =>
          if idx.length > 2 then Except.error (FDError.numIdxError idx.length)
          else
            match validateIdx x.ndim x.shape idx with
            | some e => Except.error e
            | none => Except.ok idx
      match checked with
      | Except.error e => Except.error e
      | Except.ok idx =>
        match idx with
        | [i, j] =>
          if i = j then
            match flatBase x.shape i with
            | none => Except.error FDError.indexError
            | some sc =>
              let shift : NDArray ℚ := addAt (zerosLike x) sc delta
              Except.ok ((delta ^ 2)⁻¹ •
                (f (callArgs args argnum (x.add shift)) kwargs
                  - (2 : ℚ) • f (callArgs args argnum x) kwargs
                  + f (callArgs args argnum (x.sub shift)) kwargs))
          else
            match flatBase x.shape i with
            | none => Except.error FDError.indexError
            | some sci =>
              match flatBase x.shape j with
              | none => Except.error FDError.indexError
              | some scj =>
                let si : NDArray ℚ := addAt (zerosLike x) sci ((1/2 : ℚ) * delta)
                let sj : NDArray ℚ := addAt (zerosLike x) scj ((1/2 : ℚ) * delta)
                Except.ok ((delta ^ 2)⁻¹ •
                  (f (callArgs args argnum ((x.add si).add sj)) kwargs
                    - f (callArgs args argnum ((x.sub si).add sj)) kwargs
                    - f (callArgs args argnum ((x.add si).sub sj)) kwargs
                    + f (callArgs args argnum ((x.sub si).sub sj)) kwargs))
        | _ => Except.error FDError.unpackError

/-- The argument `x` of `finite_diff`: a plain scalar or a 1-D array
(the documented input domain). -/
inductive PyVal where
  | scalar (v : ℚ)
  | arr (xs : List ℚ)

/-- Embedding of `finite_diff(F, x, i=None, delta=0.01)`.  Note: no
validation of `delta` is performed; at `delta = 0` the division
`delta ** -1` fails (after the two evaluations of `F`). -/
def finite_diff {α : Type} [AddCommGroup α] [Module ℚ α]
    (F : PyVal → α) (x : PyVal) (i : Option Int) (delta : ℚ) :
    Except FDError α :=
  match x with
  | PyVal.arr xs =>
    match i with
    | none => Except.error (FDError.iRangeError xs.length none)
    | some iv =>
      if iv < 0 ∨ (xs.length : Int) ≤ iv then
        Except.error (FDError.iRangeError xs.length (some iv))
      else
        let d : List ℚ := (List.replicate xs.length (0 : ℚ)).set iv.toNat ((1/2 : ℚ) * delta)
        let r : α := F (PyVal.arr (List.zipWith (· + ·) xs d))
          - F (PyVal.arr (List.zipWith (· - ·) xs d))
        if delta = 0 then Except.error FDError.zeroDivisionError
        else Except.ok (delta⁻¹ • r)
  | PyVal.scalar v =>
    let d : ℚ := delta * (1/2 : ℚ)
    let r : α := F (PyVal.scalar (v + d)) - F (PyVal.scalar (v - d))
    if delta = 0 then Except.error FDError.zeroDivisionError
    else Except.ok (delta⁻¹ • r)

/-! ## Spec-side vocabulary and basic lemmas -/

/-- The perturbation array from the spec: zero everywhere except `v` at
flat position `k`. -/
def shiftArr (x : NDArray ℚ) (k : Nat) (v : ℚ) : NDArray ℚ :=
  ⟨x.shape, fun m => if m = k then v else 0⟩

/-- The positionally reassembled argument list from the spec:
`args` with the entry at (non-negative) position `n` replaced by `x'`. -/
def callAt (args : List (NDArray ℚ)) (n : Nat) (x' : NDArray ℚ) :
    List (NDArray ℚ) :=
  args.take n ++ x' :: args.drop (n + 1)

theorem NDArray.ext_data {x y : NDArray α} (hs : x.shape = y.shape)
    (hd : ∀ k, x.data k = y.data k) : x = y := by
  cases x; cases y
  simp only [NDArray.mk.injEq]
  exact ⟨hs, funext hd⟩

theorem addAt_zerosLike (x : NDArray ℚ) (k : Nat) (v : ℚ) :
    addAt (zerosLike x) (k, 1) v = shiftArr x k v := by
  refine NDArray.ext_data ?_ ?_
  · rfl
  intro m
  simp only [addAt, zerosLike, shiftArr, zero_add]
  by_cases h : m = k
  · subst h; simp
  · have : ¬ (k ≤ m ∧ m < k + 1) := by omega
    simp [this, h]

theorem callArgs_eq_callAt (args : List (NDArray ℚ)) (argnum : Int)
    (x' : NDArray ℚ) (h : 0 ≤ argnum) :
    callArgs args argnum x' = callAt args argnum.toNat x' := by
  have h1 : (0 : Int) ≤ argnum + 1 := by omega
  have h2 : (argnum + 1).toNat = argnum.toNat + 1 := by omega
  simp [callArgs, callAt, pySliceTo, pySliceFrom, if_pos h, if_pos h1, h2]

theorem pyGet_nonneg (l : List β) (k : Int) (h : 0 ≤ k) :
    pyGet l k = l.get? k.toNat := by
  simp [pyGet, if_pos h]

theorem pyGet_neg_wrap (l : List β) (k : Int) (h0 : k < 0)
    (h1 : -(l.length : Int) ≤ k) :
    pyGet l k = l.get? (k + (l.length : Int)).toNat := by
  have hn : ¬ (0 : Int) ≤ k := by omega
  have hp : (0 : Int) ≤ k + (l.length : Int) := by omega
  simp [pyGet, if_neg hn, if_pos hp]

/-- The per-element validation accepts exactly the elements of correct
length with no component above its axis bound. -/
theorem validateIdx_none_of (ndim : Nat) (shape : List Nat)
    (idx : List (List Int))
    (h : ∀ t ∈ idx, t.length = ndim ∧ anyGtBounds shape t = false) :
    validateIdx ndim shape idx = none := by
  induction idx with
  | nil => rfl
  | cons t rest ih =>
    obtain ⟨hlen, hbd⟩ := h t (List.mem_cons_self t rest)
    have hrest := fun u hu => h u (List.mem_cons_of_mem t hu)
    simp [validateIdx, hlen, hbd, ih hrest]

theorem validateIdx_some_of_bad (ndim : Nat) (shape : List Nat)
    (idx : List (List Int))
    (h : ∃ t ∈ idx, t.length ≠ ndim ∨ anyGtBounds shape t = true) :
    ∃ e, validateIdx ndim shape idx = some e ∧ e.isValueErr = true := by
  induction idx with
  | nil => simp at h
  | cons t rest ih =>
    by_cases hlen : t.length = ndim
    · by_cases hbd : anyGtBounds shape t = true
      · exact ⟨FDError.idxBoundsError, by simp [validateIdx, hlen, hbd], rfl⟩
      · have hb' : anyGtBounds shape t = false := by
          cases hq : anyGtBounds shape t
          · rfl
          · exact absurd hq hbd
        have hrest : ∃ u ∈ rest, u.length ≠ ndim ∨ anyGtBounds shape u = true := by
          obtain ⟨u, hu, hcase⟩ := h
          rcases List.mem_cons.mp hu with rfl | hmem
          · rcases hcase with hc | hc
            · exact absurd hlen hc
            · exact absurd hc hbd
          · exact ⟨u, hmem, hcase⟩
        obtain ⟨e, he, hv⟩ := ih hrest
        exact ⟨e, by simp [validateIdx, hlen, hb', he], hv⟩
    · exact ⟨FDError.idxLenError ndim t.length, by simp [validateIdx, hlen], rfl⟩

theorem anyGtBounds_eq_false (shape : List Nat) (t : List Int)
    (h : ∀ p ∈ t.zip shape, p.1 ≤ (p.2 : Int) - 1) :
    anyGtBounds shape t = false := by
  simp only [anyGtBounds, List.any_eq_false, decide_eq_true_eq]
  intro p hp
  exact not_lt.mpr (h p hp)

/-! ## Multi-index resolution lemmas -/

theorem resolveIdx_of_valid (n : Nat) (c : Int) (h0 : 0 ≤ c) (h1 : c < (n : Int)) :
    resolveIdx n c = some c.toNat := by
  simp [resolveIdx, if_pos h0, if_pos h1]

/-- A full-length tuple whose components are non-negative and within
bounds resolves to a single cell. -/
theorem flatBase_of_valid (shape : List Nat) (t : List Int)
    (hlen : t.length = shape.length)
    (h : ∀ p ∈ t.zip shape, 0 ≤ p.1 ∧ p.1 < (p.2 : Int)) :
    ∃ k, flatBase shape t = some (k, 1) := by
  induction t generalizing shape with
  | nil =>
    cases shape with
    | nil => exact ⟨0, rfl⟩
    | cons n ns => simp at hlen
  | cons c cs ih =>
    cases shape with
    | nil => simp at hlen
    | cons n ns =>
      have hc := h (c, n) (by rw [List.zip_cons_cons]; exact List.mem_cons_self _ _)
      have hrest : ∀ p ∈ cs.zip ns, 0 ≤ p.1 ∧ p.1 < (p.2 : Int) := by
        intro p hp
        exact h p (by rw [List.zip_cons_cons]; exact List.mem_cons_of_mem _ hp)
      obtain ⟨b, hb⟩ := ih ns (by simpa using hlen) hrest
      refine ⟨c.toNat * ns.prod + b, ?_⟩
      simp [flatBase, resolveIdx_of_valid n c hc.1 hc.2, hb]

/-- Any resolved block lies inside the flat data range. -/
theorem flatBase_le_prod (shape : List Nat) (t : List Int) (k c : Nat)
    (h : flatBase shape t = some (k, c)) : k + c ≤ shape.prod := by
  induction t generalizing shape k c with
  | nil =>
    simp only [flatBase, Option.some.injEq, Prod.mk.injEq] at h
    omega
  | cons a as ih =>
    cases shape with
    | nil => simp [flatBase] at h
    | cons n ns =>
      simp only [flatBase] at h
      rcases hr : resolveIdx n a with _ | r
      · rw [hr] at h; simp at h
      rcases hb : flatBase ns as with _ | ⟨b, sz⟩
      · rw [hr, hb] at h; simp at h
      rw [hr, hb] at h
      simp only [Option.some.injEq, Prod.mk.injEq] at h
      have hrn : r < n := by
        simp only [resolveIdx] at hr
        by_cases h0 : (0 : Int) ≤ a
        · rw [if_pos h0] at hr
          by_cases h1 : a < (n : Int)
          · rw [if_pos h1] at hr
            simp only [Option.some.injEq] at hr
            omega
          · rw [if_neg h1] at hr; exact absurd hr (by simp)
        · rw [if_neg h0] at hr
          by_cases h1 : (0 : Int) ≤ a + (n : Int)
          · rw [if_pos h1] at hr
            simp only [Option.some.injEq] at hr
            omega
          · rw [if_neg h1] at hr; exact absurd hr (by simp)
      have hbs := ih ns b sz hb
      have : (r + 1) * ns.prod ≤ n * ns.prod :=
        Nat.mul_le_mul_right ns.prod hrn
      calc k + c = r * ns.prod + b + sz := by omega
        _ ≤ r * ns.prod + ns.prod := by omega
        _ = (r + 1) * ns.prod := by ring
        _ ≤ n * ns.prod := this
        _ = (n :: ns).prod := by simp

/-- Every element of `ndindex shape` is a full-length in-bounds
non-negative multi-index. -/
theorem mem_ndindex (shape : List Nat) (t : List Int) (h : t ∈ ndindex shape) :
    t.length = shape.length ∧ ∀ p ∈ t.zip shape, 0 ≤ p.1 ∧ p.1 < (p.2 : Int) := by
  induction shape generalizing t with
  | nil =>
    simp only [ndindex, List.mem_singleton] at h
    subst h
    exact ⟨rfl, by simp⟩
  | cons n ns ih =>
    simp only [ndindex, List.mem_flatMap, List.mem_map] at h
    obtain ⟨k, hk, u, hu, rfl⟩ := h
    obtain ⟨hlen, hval⟩ := ih u hu
    have hkn : k < n := List.mem_range.mp hk
    refine ⟨by simp [hlen], ?_⟩
    intro p hp
    rcases List.mem_cons.mp hp with rfl | hmem
    · constructor
      · show (0 : Int) ≤ (k : Int)
        exact Int.ofNat_nonneg k
      · show (k : Int) < (n : Int)
        exact_mod_cast hkn
    · exact hval p hmem

/-! ## Characterisation of the first-order evaluation loop -/

/-- The value the first-order loop stores for an index resolving to flat
cell `k`. -/
def fdStencil {α K : Type} [AddCommGroup α] [Module ℚ α]
    (f : List (NDArray ℚ) → K → α) (argnum : Int) (delta : ℚ)
    (args : List (NDArray ℚ)) (kwargs : K) (x : NDArray ℚ) (k : Nat) : α :=
  delta⁻¹ •
    (f (callArgs args argnum (x.add (addAt (zerosLike x) (k, 1) ((1/2 : ℚ) * delta)))) kwargs
      - f (callArgs args argnum (x.sub (addAt (zerosLike x) (k, 1) ((1/2 : ℚ) * delta)))) kwargs)

theorem fdFirstLoop_spec {α K : Type} [AddCommGroup α] [Module ℚ α]
    (f : List (NDArray ℚ) → K → α) (argnum : Int) (delta : ℚ)
    (args : List (NDArray ℚ)) (kwargs : K) (x : NDArray ℚ)
    (idx : List (List Int)) (g : NDArray α)
    (h : ∀ t ∈ idx, ∃ k, flatBase x.shape t = some (k, 1)) :
    ∃ g', fdFirstLoop f argnum delta args kwargs x idx g = Except.ok g' ∧
      g'.shape = g.shape ∧
      (∀ k, (∃ t ∈ idx, flatBase x.shape t = some (k, 1)) →
        g'.data k = fdStencil f argnum delta args kwargs x k) ∧
      (∀ k, (¬ ∃ t ∈ idx, flatBase x.shape t = some (k, 1)) →
        g'.data k = g.data k) := by
  induction idx generalizing g with
  | nil =>
    refine ⟨g, rfl, rfl, ?_, fun k _ => rfl⟩
    intro k hk
    simp at hk
  | cons t rest ih =>
    obtain ⟨kt, hkt⟩ := h t (List.mem_cons_self t rest)
    have hrest : ∀ u ∈ rest, ∃ k, flatBase x.shape u = some (k, 1) :=
      fun u hu => h u (List.mem_cons_of_mem t hu)
    obtain ⟨g', hg', hsh, hin, hout⟩ :=
      ih (setAt g (kt, 1) (fdStencil f argnum delta args kwargs x kt)) hrest
    refine ⟨g', ?_, by simpa [setAt] using hsh, ?_, ?_⟩
    · simpa [fdFirstLoop, hkt, fdStencil] using hg'
    · intro k hk
      obtain ⟨u, hu, hfu⟩ := hk
      rcases List.mem_cons.mp hu with rfl | hmem
      · have hkk : k = kt := by
          rw [hfu] at hkt
          simpa using hkt
        subst hkk
        by_cases hk' : ∃ u ∈ rest, flatBase x.shape u = some (k, 1)
        · exact hin k hk'
        · rw [hout k hk']
          simp [setAt]
      · exact hin k ⟨u, hmem, hfu⟩
    · intro k hk
      push_neg at hk
      have hne : flatBase x.shape t ≠ some (k, 1) := hk t (List.mem_cons_self t rest)
      have hkk : kt ≠ k := by
        intro hq
        exact hne (hq ▸ hkt)
      rw [hout k (by
        intro ⟨u, hu, hfu⟩
        exact hk u (List.mem_cons_of_mem t hu) hfu)]
      simp only [setAt]
      have : ¬ (kt ≤ k ∧ k < kt + 1) := by omega
      simp [this]

/-! ## Negative-index wrap-around -/

/-- Replace each in-range negative component by its non-negative
wrap-around equivalent. -/
def wrapComp (n : Nat) (c : Int) : Int := if c < 0 then c + (n : Int) else c

/-- Componentwise wrap-around of a multi-index tuple. -/
def wrapTuple (shape : List Nat) (t : List Int) : List Int :=
  (t.zip shape).map fun p => wrapComp p.2 p.1

theorem resolveIdx_wrap (n : Nat) (c : Int) (h : -(n : Int) ≤ c) :
    resolveIdx n c = resolveIdx n (wrapComp n c) := by
  by_cases hc : c < 0
  · have h0 : ¬ (0 : Int) ≤ c := by omega
    have h1 : (0 : Int) ≤ c + (n : Int) := by omega
    have h2 : c + (n : Int) < (n : Int) := by omega
    simp [resolveIdx, wrapComp, if_pos hc, if_neg h0, if_pos h1, if_pos h2]
  · simp [wrapComp, if_neg hc]

theorem flatBase_wrap (shape : List Nat) (t : List Int)
    (hlen : t.length ≤ shape.length)
    (h : ∀ p ∈ t.zip shape, -(p.2 : Int) ≤ p.1) :
    flatBase shape t = flatBase shape (wrapTuple shape t) := by
  induction t generalizing shape with
  | nil => simp [wrapTuple]
  | cons c cs ih =>
    cases shape with
    | nil => simp at hlen
    | cons n ns =>
      have hc := h (c, n) (by rw [List.zip_cons_cons]; exact List.mem_cons_self _ _)
      have hrest : ∀ p ∈ cs.zip ns, -(p.2 : Int) ≤ p.1 := by
        intro p hp
        exact h p (by rw [List.zip_cons_cons]; exact List.mem_cons_of_mem _ hp)
      have hwt : wrapTuple (n :: ns) (c :: cs) = wrapComp n c :: wrapTuple ns cs := by
        simp [wrapTuple]
      rw [hwt]
      simp only [flatBase]
      rw [← resolveIdx_wrap n c hc, ← ih ns (by simpa using hlen) hrest]

theorem wrapTuple_length (shape : List Nat) (t : List Int)
    (hlen : t.length ≤ shape.length) :
    (wrapTuple shape t).length = t.length := by
  simp [wrapTuple, List.length_zip]
  omega

theorem wrapTuple_valid (shape : List Nat) (t : List Int)
    (h : ∀ p ∈ t.zip shape, -(p.2 : Int) ≤ p.1 ∧ p.1 < (p.2 : Int)) :
    ∀ p ∈ (wrapTuple shape t).zip shape, 0 ≤ p.1 ∧ p.1 < (p.2 : Int) := by
  induction t generalizing shape with
  | nil => simp [wrapTuple]
  | cons c cs ih =>
    cases shape with
    | nil => simp [wrapTuple]
    | cons n ns =>
      have hc := h (c, n) (by rw [List.zip_cons_cons]; exact List.mem_cons_self _ _)
      have hrest : ∀ p ∈ cs.zip ns, -(p.2 : Int) ≤ p.1 ∧ p.1 < (p.2 : Int) := by
        intro p hp
        exact h p (by rw [List.zip_cons_cons]; exact List.mem_cons_of_mem _ hp)
      have hwt : wrapTuple (n :: ns) (c :: cs) = wrapComp n c :: wrapTuple ns cs := by
        simp [wrapTuple]
      rw [hwt]
      intro p hp
      rw [List.zip_cons_cons] at hp
      rcases List.mem_cons.mp hp with rfl | hmem
      · constructor
        · show (0 : Int) ≤ wrapComp n c
          simp only [wrapComp]
          by_cases hneg : c < 0
          · simp only [if_pos hneg]
            omega
          · simp only [if_neg hneg]
            omega
        · show wrapComp n c < (n : Int)
          simp only [wrapComp]
          by_cases hneg : c < 0
          · simp only [if_pos hneg]
            omega
          · simp only [if_neg hneg]
            omega
      · exact ih ns hrest p hmem

/-- The evaluation loop only looks at index tuples through `flatBase`:
rewriting each tuple to one with the same resolution leaves the result
unchanged. -/
theorem fdFirstLoop_congr {α K : Type} [AddCommGroup α] [Module ℚ α]
    (f : List (NDArray ℚ) → K → α) (argnum : Int) (delta : ℚ)
    (args : List (NDArray ℚ)) (kwargs : K) (x : NDArray ℚ)
    (w : List Int → List Int) (idx : List (List Int)) (g : NDArray α)
    (h : ∀ t ∈ idx, flatBase x.shape t = flatBase x.shape (w t)) :
    fdFirstLoop f argnum delta args kwargs x idx g =
      fdFirstLoop f argnum delta args kwargs x (idx.map w) g := by
  induction idx generalizing g with
  | nil => rfl
  | cons t rest ih =>
    have ht := h t (List.mem_cons_self t rest)
    have hrest := fun u hu => h u (List.mem_cons_of_mem t hu)
    simp only [List.map_cons, fdFirstLoop, ← ht]
    cases flatBase x.shape t with
    | none => rfl
    | some sc => exact ih _ hrest

/-! ## Elementwise shift algebra (for stencil symmetry) -/

theorem NDArray.add_add_swap (x u v : NDArray ℚ) :
    (x.add u).add v = (x.add v).add u := by
  refine NDArray.ext_data rfl ?_
  intro k
  simp only [NDArray.add]
  ring

theorem NDArray.sub_add_swap (x u v : NDArray ℚ) :
    (x.sub u).add v = (x.add v).sub u := by
  refine NDArray.ext_data rfl ?_
  intro k
  simp only [NDArray.add, NDArray.sub]
  ring

theorem NDArray.sub_sub_swap (x u v : NDArray ℚ) :
    (x.sub u).sub v = (x.sub v).sub u := by
  refine NDArray.ext_data rfl ?_
  intro k
  simp only [NDArray.sub]
  ring

/-! ## Linear functions (dot products) -/

/-- `a · d` over the first `n` flat cells. -/
def dotF (a : Nat → ℚ) (n : Nat) (d : Nat → ℚ) : ℚ :=
  ∑ m ∈ Finset.range n, a m * d m

/-- The linear test function `f(x) = a · x` of the spec, reading the
array passed in first position. -/
def fLin (a : Nat → ℚ) (n : Nat) : List (NDArray ℚ) → Unit → ℚ :=
  fun as _ => dotF a n (as.headD ⟨[], fun _ => 0⟩).data

theorem dotF_add (a : Nat → ℚ) (n : Nat) (d e : Nat → ℚ) :
    dotF a n (fun m => d m + e m) = dotF a n d + dotF a n e := by
  simp [dotF, mul_add, Finset.sum_add_distrib]

theorem dotF_sub (a : Nat → ℚ) (n : Nat) (d e : Nat → ℚ) :
    dotF a n (fun m => d m - e m) = dotF a n d - dotF a n e := by
  simp [dotF, mul_sub, Finset.sum_sub_distrib]

theorem dotF_single (a : Nat → ℚ) (n k : Nat) (v : ℚ) (hk : k < n) :
    dotF a n (fun m => if m = k then v else 0) = a k * v := by
  rw [dotF, Finset.sum_eq_single k]
  · simp
  · intro b _ hb
    simp [hb]
  · intro hk'
    exact absurd (Finset.mem_range.mpr hk) hk'

/-! ## Concrete objects for witnesses and counterexamples -/

/-- The concrete array `[1, 2]`. -/
def xConcrete : NDArray ℚ := ⟨[2], fun k => (k : ℚ) + 1⟩

/-- A concrete test function: the sum of the first two cells of the
first positional argument. -/
def fSum : List (NDArray ℚ) → Unit → ℚ :=
  fun as _ => (as.headD ⟨[], fun _ => 0⟩).data 0 + (as.headD ⟨[], fun _ => 0⟩).data 1

/-- A concrete test function: the product of the first two cells of the
first positional argument. -/
def fProd : List (NDArray ℚ) → Unit → ℚ :=
  fun as _ => (as.headD ⟨[], fun _ => 0⟩).data 0 * (as.headD ⟨[], fun _ => 0⟩).data 1

/-- A concrete scalar test function: squaring. -/
def sqF : PyVal → ℚ :=
  fun v => match v with
  | PyVal.scalar q => q * q
  | PyVal.arr xs => xs.headD 0

/-- Projection of a first-order result onto one gradient entry (used to
state concrete facts without comparing function-valued containers). -/
def gradEntry (r : Except FDError (NDArray ℚ)) (k : Nat) : Option ℚ :=
  match r with
  | Except.ok g => some (g.data k)
  | Except.error _ => none

/-- Projection of a result onto its error, if any. -/
def resErr {β : Type} (r : Except FDError β) : Option FDError :=
  match r with
  | Except.ok _ => none
  | Except.error e => some e

/-! ## Claims -/

/-- **C1** (counterexample).  The claim that *every* operation of the
engine validates `delta > 0` eagerly is false: `finite_diff` performs no
validation of `delta` at all.  At `delta = -1 ≤ 0` it does not fail with
a value error; it evaluates `F` and returns the (negative-step) stencil
value `6`. -/
theorem C1_counterexample :
    finite_diff sqF (PyVal.scalar 3) none (-1) = Except.ok 6 := by
  norm_num [finite_diff, sqF]

/-- **C1** (amended).  `_fd_first_order_centered` and
`_fd_second_order_centered` validate `delta > 0` eagerly: whenever the
(earlier) `argnum` check passes and `delta ≤ 0`, both fail with the
`delta` value error, for every `f` (so `f` is never evaluated).
`finite_diff` performs no `delta` validation: for `delta ≠ 0` the scalar
call succeeds with the stencil value, and at `delta = 0` it fails with a
zero-division error — not a value error. -/
theorem C1_delta_validation {α K : Type} [AddCommGroup α] [Module ℚ α] :
    (∀ (f : List (NDArray ℚ) → K → α) (argnum : Int) (delta : ℚ)
        (args : List (NDArray ℚ)) (kwargs : K) (idx? : Option (List (List Int))),
      ¬ argnum > (args.length : Int) - 1 → delta ≤ 0 →
        fd_first_order_centered f argnum delta args kwargs idx? =
          Except.error (FDError.deltaError delta) ∧
        fd_second_order_centered f argnum delta args kwargs idx? =
          Except.error (FDError.deltaError delta) ∧
        (FDError.deltaError delta).isValueErr = true)
    ∧ (∀ (F : PyVal → α) (v : ℚ) (i : Option Int) (delta : ℚ), delta ≠ 0 →
        finite_diff F (PyVal.scalar v) i delta =
          Except.ok (delta⁻¹ •
            (F (PyVal.scalar (v + delta / 2)) - F (PyVal.scalar (v - delta / 2)))))
    ∧ (∀ (F : PyVal → α) (v : ℚ) (i : Option Int),
        finite_diff F (PyVal.scalar v) i 0 = Except.error FDError.zeroDivisionError
        ∧ FDError.zeroDivisionError.isValueErr = false) := by
  refine ⟨?_, ?_, ?_⟩
  · intro f argnum delta args kwargs idx? h1 h2
    refine ⟨?_, ?_, rfl⟩
    · simp [fd_first_order_centered, if_neg h1, if_pos h2]
    · simp [fd_second_order_centered, if_neg h1, if_pos h2]
  · intro F v i delta hδ
    have h2 : delta * (1/2 : ℚ) = delta / 2 := by ring
    simp only [finite_diff, if_neg hδ, h2]
  · intro F v i
    exact ⟨by simp [finite_diff], rfl⟩

/-- **C1** (witness for the amended theorem at a concrete input). -/
theorem C1_witness :
    (¬ (0 : Int) > (([xConcrete].length : Nat) : Int) - 1) ∧ ((0 : ℚ) ≤ 0) ∧
    fd_first_order_centered fSum 0 0 [xConcrete] () none =
      Except.error (FDError.deltaError 0) := by
  refine ⟨by norm_num, le_refl 0, ?_⟩
  exact (((C1_delta_validation (α := ℚ) (K := Unit)).1 fSum 0 0 [xConcrete] () none
    (by norm_num) (le_refl 0))).1

/-- **C2** (counterexample).  The claim that every `argnum` outside
`0 ≤ argnum ≤ len(args)-1` — in particular every negative `argnum` —
fails with a value error without evaluating `f` is false: at
`argnum = -1` (with one positional argument) the check `argnum >
len(args) - 1` passes, `f` is evaluated, and the call returns a gradient
whose entry `0` is `1`. -/
theorem C2_counterexample :
    gradEntry (fd_first_order_centered fSum (-1) 1 [xConcrete] () (some [[0]])) 0 =
      some 1 := by
  norm_num [gradEntry, fd_first_order_centered, fdFirstLoop, validateIdx, anyGtBounds,
    flatBase, resolveIdx, addAt, setAt, zerosLike, callArgs, pySliceTo, pySliceFrom,
    pyGet, xConcrete, fSum, NDArray.add, NDArray.sub, NDArray.ndim]

/-- **C2** (amended).  The functions validate only the upper bound:
for every `argnum > len(args) - 1` both fail with the `argnum` value
error carrying the valid bound and the offending value, for every `f`
(so `f` is never evaluated).  A negative `argnum` is *not* rejected by
this validation (the call proceeds to the `delta` check), and an
in-range negative `argnum` selects the argument from the end of `args`,
Python style. -/
theorem C2_argnum_validation {α K : Type} [AddCommGroup α] [Module ℚ α] :
    (∀ (f : List (NDArray ℚ) → K → α) (argnum : Int) (delta : ℚ)
        (args : List (NDArray ℚ)) (kwargs : K) (idx? : Option (List (List Int))),
      (args.length : Int) - 1 < argnum →
        fd_first_order_centered f argnum delta args kwargs idx? =
          Except.error (FDError.argnumError ((args.length : Int) - 1) argnum) ∧
        fd_second_order_centered f argnum delta args kwargs idx? =
          Except.error (FDError.argnumError ((args.length : Int) - 1) argnum) ∧
        (FDError.argnumError ((args.length : Int) - 1) argnum).isValueErr = true)
    ∧ (∀ (f : List (NDArray ℚ) → K → α) (argnum : Int) (delta : ℚ)
        (args : List (NDArray ℚ)) (kwargs : K) (idx? : Option (List (List Int))),
      argnum < 0 → delta ≤ 0 →
        fd_first_order_centered f argnum delta args kwargs idx? =
          Except.error (FDError.deltaError delta) ∧
        fd_second_order_centered f argnum delta args kwargs idx? =
          Except.error (FDError.deltaError delta))
    ∧ (∀ (l : List (NDArray ℚ)) (k : Int), k < 0 → -(l.length : Int) ≤ k →
        pyGet l k = l.get? (k + (l.length : Int)).toNat) := by
  refine ⟨?_, ?_, ?_⟩
  · intro f argnum delta args kwargs idx? h
    refine ⟨?_, ?_, rfl⟩
    · simp [fd_first_order_centered, if_pos h]
    · simp [fd_second_order_centered, if_pos h]
  · intro f argnum delta args kwargs idx? h1 h2
    have h1' : ¬ argnum > (args.length : Int) - 1 := by
      have : (0 : Int) ≤ (args.length : Int) := Int.ofNat_nonneg _
      omega
    constructor
    · simp [fd_first_order_centered, if_neg h1', if_pos h2]
    · simp [fd_second_order_centered, if_neg h1', if_pos h2]
  · intro l k h0 h1
    exact pyGet_neg_wrap l k h0 h1

/-- **C2** (witness for the amended theorem at a concrete input). -/
theorem C2_witness :
    (([xConcrete].length : Int) - 1 < 5) ∧
    fd_first_order_centered fSum 5 1 [xConcrete] () none =
      Except.error (FDError.argnumError (([xConcrete].length : Int) - 1) 5) := by
  refine ⟨by norm_num, ?_⟩
  exact ((C2_argnum_validation (α := ℚ) (K := Unit)).1 fSum 5 1 [xConcrete] () none
    (by norm_num)).1

/-- **C3** (confirmed).  For every `F` and `delta ≠ 0` (the formula's own
well-definedness condition; the code divides by `delta`): on a scalar
`x` the result is `(F(x + delta/2) - F(x - delta/2)) / delta` and `i` is
unused; on a 1-D array `x` with a valid flat index `i` the result is
`(F(x + d) - F(x - d)) / delta` where `d` is zero everywhere except
`delta/2` at position `i`. -/
theorem C3_finite_diff {α : Type} [AddCommGroup α] [Module ℚ α]
    (F : PyVal → α) (delta : ℚ) (hδ : delta ≠ 0) :
    (∀ (v : ℚ) (i : Option Int),
      finite_diff F (PyVal.scalar v) i delta =
        Except.ok (delta⁻¹ •
          (F (PyVal.scalar (v + delta / 2)) - F (PyVal.scalar (v - delta / 2)))))
    ∧ (∀ (xs : List ℚ) (i : Nat), i < xs.length →
      finite_diff F (PyVal.arr xs) (some (i : Int)) delta =
        Except.ok (delta⁻¹ •
          (F (PyVal.arr (List.zipWith (· + ·) xs ((List.replicate xs.length 0).set i (delta / 2))))
            - F (PyVal.arr (List.zipWith (· - ·) xs ((List.replicate xs.length 0).set i (delta / 2))))))) := by
  have hhalf : (1/2 : ℚ) * delta = delta / 2 := by ring
  constructor
  · intro v i
    have h2 : delta * (1/2 : ℚ) = delta / 2 := by ring
    simp only [finite_diff, if_neg hδ, h2]
  · intro xs i hi
    have hcond : ¬ ((i : Int) < 0 ∨ (xs.length : Int) ≤ (i : Int)) := by
      push_neg
      constructor
      · exact Int.ofNat_nonneg i
      · exact_mod_cast hi
    have htn : ((i : Int)).toNat = i := Int.toNat_ofNat i
    simp only [finite_diff, if_neg hcond, if_neg hδ, htn, hhalf]

/-- **C3** (witness at a concrete input). -/
theorem C3_witness :
    ((1 : ℚ) ≠ 0) ∧
    finite_diff sqF (PyVal.scalar 3) none 1 =
      Except.ok ((1 : ℚ)⁻¹ •
        (sqF (PyVal.scalar (3 + 1 / 2)) - sqF (PyVal.scalar (3 - 1 / 2)))) := by
  refine ⟨one_ne_zero, ?_⟩
  exact (C3_finite_diff sqF 1 one_ne_zero).1 3 none

/-- **C10** (confirmed).  A supplied `idx` with a single (valid) index
tuple passes the `len(idx) > 2` check and the per-tuple validation, but
the call then fails at the two-element unpacking `i, j = idx` with an
unpack error, which is distinct from the documented length/bounds/count
value errors; the result holds for every `f` (so `f` is never
evaluated) and no derivative is returned. -/
theorem C10_single_index_unpack {α K : Type} [AddCommGroup α] [Module ℚ α]
    (f : List (NDArray ℚ) → K → α) (argnum : Int) (delta : ℚ)
    (args : List (NDArray ℚ)) (kwargs : K) (x : NDArray ℚ) (t : List Int)
    (hargnum : ¬ argnum > (args.length : Int) - 1)
    (hδ : 0 < delta)
    (hget : pyGet args argnum = some x)
    (hval : validateIdx x.ndim x.shape [t] = none) :
    fd_second_order_centered f argnum delta args kwargs (some [t]) =
      Except.error FDError.unpackError
    ∧ (FDError.unpackError.isValueErr = true)
    ∧ (∀ a b : Nat, FDError.unpackError ≠ FDError.idxLenError a b)
    ∧ (FDError.unpackError ≠ FDError.idxBoundsError)
    ∧ (∀ a : Nat, FDError.unpackError ≠ FDError.numIdxError a) := by
  refine ⟨?_, rfl, fun a b h => FDError.noConfusion h, fun h => FDError.noConfusion h,
    fun a h => FDError.noConfusion h⟩
  have hδ' : ¬ delta ≤ 0 := not_le.mpr hδ
  have hlen : ¬ ([t].length > 2) := by norm_num
  simp only [fd_second_order_centered, if_neg hargnum, if_neg hδ', hget, if_neg hlen, hval]

/-- **C10** (witness at a concrete input). -/
theorem C10_witness :
    (¬ (0 : Int) > (([xConcrete].length : Nat) : Int) - 1) ∧ ((0 : ℚ) < 1) ∧
    (pyGet [xConcrete] 0 = some xConcrete) ∧
    (validateIdx xConcrete.ndim xConcrete.shape [[0]] = none) ∧
    fd_second_order_centered fSum 0 1 [xConcrete] () (some [[0]]) =
      Except.error FDError.unpackError := by
  refine ⟨by norm_num, by norm_num, rfl, by decide, ?_⟩
  exact (C10_single_index_unpack fSum 0 1 [xConcrete] () xConcrete [0]
    (by norm_num) (by norm_num) rfl (by decide)).1

/-- **C6** (confirmed).  For both operators, once the `argnum` and
`delta` checks pass: if the supplied `idx` contains a tuple of the wrong
length or with a component above its axis bound, the call fails with a
value error (for every `f`, so `f` is never evaluated); the second-order
operator also fails with the count value error whenever more than 2
index tuples are supplied.  The error is produced by the shared
validation pass and so is identical for both operators. -/
theorem C6_idx_validation {α K : Type} [AddCommGroup α] [Module ℚ α]
    (f : List (NDArray ℚ) → K → α) (argnum : Int) (delta : ℚ)
    (args : List (NDArray ℚ)) (kwargs : K) (x : NDArray ℚ)
    (idx : List (List Int))
    (hget : pyGet args argnum = some x)
    (hargnum : ¬ argnum > (args.length : Int) - 1)
    (hδ : 0 < delta) :
    ((∃ t ∈ idx, t.length ≠ x.ndim ∨ anyGtBounds x.shape t = true) →
      ∃ e, validateIdx x.ndim x.shape idx = some e ∧ e.isValueErr = true ∧
        fd_first_order_centered f argnum delta args kwargs (some idx) =
          Except.error e ∧
        (idx.length ≤ 2 →
          fd_second_order_centered f argnum delta args kwargs (some idx) =
            Except.error e))
    ∧ (2 < idx.length →
        fd_second_order_centered f argnum delta args kwargs (some idx) =
          Except.error (FDError.numIdxError idx.length) ∧
        (FDError.numIdxError idx.length).isValueErr = true) := by
  have hδ' : ¬ delta ≤ 0 := not_le.mpr hδ
  constructor
  · intro hbad
    obtain ⟨e, he, hv⟩ := validateIdx_some_of_bad x.ndim x.shape idx hbad
    refine ⟨e, he, hv, ?_, ?_⟩
    · simp only [fd_first_order_centered, if_neg hargnum, if_neg hδ', hget, he]
    · intro hlen
      have hlen' : ¬ (idx.length > 2) := by omega
      simp only [fd_second_order_centered, if_neg hargnum, if_neg hδ', hget,
        if_neg hlen', he]
  · intro hlen
    refine ⟨?_, rfl⟩
    simp only [fd_second_order_centered, if_neg hargnum, if_neg hδ', hget, if_pos hlen]

/-- **C6** (witness at a concrete input: a bounds-violating tuple). -/
theorem C6_witness :
    ∃ e, validateIdx xConcrete.ndim xConcrete.shape [[5]] = some e ∧
      e.isValueErr = true ∧
      fd_first_order_centered fSum 0 1 [xConcrete] () (some [[5]]) =
        Except.error e ∧
      (([[5]] : List (List Int)).length ≤ 2 →
        fd_second_order_centered fSum 0 1 [xConcrete] () (some [[5]]) =
          Except.error e) := by
  exact (C6_idx_validation fSum 0 1 [xConcrete] () xConcrete [[5]] rfl
    (by norm_num) (by norm_num)).1 ⟨[5], by norm_num, Or.inr (by decide)⟩

/-- **C4** (confirmed).  For a validated `idx = [i, j]` (with `argnum`,
`delta` valid and both tuples resolving to single cells `ki`, `kj`):
when `i = j` the result is the three-point stencil
`(f(x+s) - 2 f(x) + f(x-s)) / delta²` with `s` of magnitude `delta` at
cell `ki`; when `i ≠ j` it is the four-point cross stencil with
independent half-step (`delta/2`) perturbations at `ki` and `kj`.  In
both cases a single value is returned and the other positional and
keyword arguments are passed to `f` unchanged (positionally
reassembled). -/
theorem C4_second_order_value {α K : Type} [AddCommGroup α] [Module ℚ α]
    (f : List (NDArray ℚ) → K → α) (argnum : Int) (delta : ℚ)
    (args : List (NDArray ℚ)) (kwargs : K) (x : NDArray ℚ)
    (i j : List Int) (ki kj : Nat)
    (hargpos : 0 ≤ argnum)
    (hargnum : ¬ argnum > (args.length : Int) - 1)
    (hget : pyGet args argnum = some x)
    (hδ : 0 < delta)
    (hval : validateIdx x.ndim x.shape [i, j] = none)
    (hki : flatBase x.shape i = some (ki, 1))
    (hkj : flatBase x.shape j = some (kj, 1)) :
    fd_second_order_centered f argnum delta args kwargs (some [i, j]) =
      (if i = j then
        Except.ok ((delta ^ 2)⁻¹ •
          (f (callAt args argnum.toNat (x.add (shiftArr x ki delta))) kwargs
            - (2 : ℚ) • f (callAt args argnum.toNat x) kwargs
            + f (callAt args argnum.toNat (x.sub (shiftArr x ki delta))) kwargs))
      else
        Except.ok ((delta ^ 2)⁻¹ •
          (f (callAt args argnum.toNat
              ((x.add (shiftArr x ki (delta / 2))).add (shiftArr x kj (delta / 2)))) kwargs
            - f (callAt args argnum.toNat
              ((x.sub (shiftArr x ki (delta / 2))).add (shiftArr x kj (delta / 2)))) kwargs
            - f (callAt args argnum.toNat
              ((x.add (shiftArr x ki (delta / 2))).sub (shiftArr x kj (delta / 2)))) kwargs
            + f (callAt args argnum.toNat
              ((x.sub (shiftArr x ki (delta / 2))).sub (shiftArr x kj (delta / 2)))) kwargs))) := by
  have hδ' : ¬ delta ≤ 0 := not_le.mpr hδ
  have hlen : ¬ (([i, j] : List (List Int)).length > 2) := by norm_num
  have hhalf : (1/2 : ℚ) * delta = delta / 2 := by ring
  have hca : ∀ x' : NDArray ℚ, callArgs args argnum x' = callAt args argnum.toNat x' :=
    fun x' => callArgs_eq_callAt args argnum x' hargpos
  by_cases hij : i = j
  · simp only [fd_second_order_centered, if_neg hargnum, if_neg hδ', hget, if_neg hlen,
      hval, if_pos hij, hki, addAt_zerosLike, hca]
  · simp only [fd_second_order_centered, if_neg hargnum, if_neg hδ', hget, if_neg hlen,
      hval, if_neg hij, hki, hkj, addAt_zerosLike, hhalf, hca]

/-- **C4** (witness at a concrete input: the off-diagonal case). -/
theorem C4_witness :
    fd_second_order_centered fProd 0 1 [xConcrete] () (some [[0], [1]]) =
      (if ([0] : List Int) = [1] then
        Except.ok (((1 : ℚ) ^ 2)⁻¹ •
          (fProd (callAt [xConcrete] 0 (xConcrete.add (shiftArr xConcrete 0 1))) ()
            - (2 : ℚ) • fProd (callAt [xConcrete] 0 xConcrete) ()
            + fProd (callAt [xConcrete] 0 (xConcrete.sub (shiftArr xConcrete 0 1))) ()))
      else
        Except.ok (((1 : ℚ) ^ 2)⁻¹ •
          (fProd (callAt [xConcrete] 0
              ((xConcrete.add (shiftArr xConcrete 0 (1 / 2))).add (shiftArr xConcrete 1 (1 / 2)))) ()
            - fProd (callAt [xConcrete] 0
              ((xConcrete.sub (shiftArr xConcrete 0 (1 / 2))).add (shiftArr xConcrete 1 (1 / 2)))) ()
            - fProd (callAt [xConcrete] 0
              ((xConcrete.add (shiftArr xConcrete 0 (1 / 2))).sub (shiftArr xConcrete 1 (1 / 2)))) ()
            + fProd (callAt [xConcrete] 0
              ((xConcrete.sub (shiftArr xConcrete 0 (1 / 2))).sub (shiftArr xConcrete 1 (1 / 2)))) ()))) := by
  exact C4_second_order_value fProd 0 1 [xConcrete] () xConcrete [0] [1] 0 1
    (by norm_num) (by norm_num) rfl (by norm_num) (by decide) (by decide) (by decide)

/-- **C5** (confirmed).  With valid `argnum` and `delta`: omitting `idx`
is the same as supplying every multi-index of the target argument's
shape; and for every supplied valid `idx` the call returns a container
with the target argument's shape whose entry at each requested index is
`(f(x+shift) - f(x-shift)) / delta`, with `shift` zero everywhere except
`delta/2` at that index, all other positional and keyword arguments
passed to `f` unchanged (positionally reassembled). -/
theorem C5_first_order_gradient {α K : Type} [AddCommGroup α] [Module ℚ α]
    (f : List (NDArray ℚ) → K → α) (argnum : Int) (delta : ℚ)
    (args : List (NDArray ℚ)) (kwargs : K) (x : NDArray ℚ)
    (hargpos : 0 ≤ argnum)
    (hargnum : ¬ argnum > (args.length : Int) - 1)
    (hget : pyGet args argnum = some x)
    (hδ : 0 < delta) :
    (fd_first_order_centered f argnum delta args kwargs none =
      fd_first_order_centered f argnum delta args kwargs (some (ndindex x.shape)))
    ∧ ∀ idx : List (List Int),
      (∀ t ∈ idx, t.length = x.ndim ∧ ∀ p ∈ t.zip x.shape, 0 ≤ p.1 ∧ p.1 < (p.2 : Int)) →
      ∃ g, fd_first_order_centered f argnum delta args kwargs (some idx) =
          Except.ok g ∧
        g.shape = x.shape ∧
        ∀ t ∈ idx, ∀ k, flatBase x.shape t = some (k, 1) →
          g.data k = delta⁻¹ •
            (f (callAt args argnum.toNat (x.add (shiftArr x k (delta / 2)))) kwargs
              - f (callAt args argnum.toNat (x.sub (shiftArr x k (delta / 2)))) kwargs) := by
  have hδ' : ¬ delta ≤ 0 := not_le.mpr hδ
  have hhalf : (1/2 : ℚ) * delta = delta / 2 := by ring
  have hca : ∀ x' : NDArray ℚ, callArgs args argnum x' = callAt args argnum.toNat x' :=
    fun x' => callArgs_eq_callAt args argnum x' hargpos
  constructor
  · have hnd : validateIdx x.ndim x.shape (ndindex x.shape) = none := by
      apply validateIdx_none_of
      intro t ht
      obtain ⟨hl, hv⟩ := mem_ndindex x.shape t ht
      refine ⟨hl, anyGtBounds_eq_false _ _ ?_⟩
      intro p hp
      have := hv p hp
      omega
    simp only [fd_first_order_centered, if_neg hargnum, if_neg hδ', hget, hnd]
  · intro idx hidx
    have hres : ∀ t ∈ idx, ∃ k, flatBase x.shape t = some (k, 1) := by
      intro t ht
      exact flatBase_of_valid x.shape t (hidx t ht).1 (hidx t ht).2
    have hval : validateIdx x.ndim x.shape idx = none := by
      apply validateIdx_none_of
      intro t ht
      refine ⟨(hidx t ht).1, anyGtBounds_eq_false _ _ ?_⟩
      intro p hp
      have := (hidx t ht).2 p hp
      omega
    obtain ⟨g, hg, hsh, hin, -⟩ :=
      fdFirstLoop_spec f argnum delta args kwargs x idx (zerosLike x) hres
    refine ⟨g, ?_, hsh, ?_⟩
    · simp only [fd_first_order_centered, if_neg hargnum, if_neg hδ', hget, hval]
      exact hg
    · intro t ht k hk
      rw [hin k ⟨t, ht, hk⟩]
      simp only [fdStencil, addAt_zerosLike, hhalf, hca]

/-- **C5** (witness at a concrete input). -/
theorem C5_witness :
    ∃ g, fd_first_order_centered fSum 0 1 [xConcrete] () (some [[0]]) =
        Except.ok g ∧
      g.shape = xConcrete.shape ∧
      ∀ t ∈ ([[0]] : List (List Int)), ∀ k, flatBase xConcrete.shape t = some (k, 1) →
        g.data k = (1 : ℚ)⁻¹ •
          (fSum (callAt [xConcrete] 0 (xConcrete.add (shiftArr xConcrete k (1 / 2)))) ()
            - fSum (callAt [xConcrete] 0 (xConcrete.sub (shiftArr xConcrete k (1 / 2)))) ()) := by
  exact (C5_first_order_gradient fSum 0 1 [xConcrete] () xConcrete
    (by norm_num) (by norm_num) rfl (by norm_num)).2 [[0]] (by decide)

theorem dotF_add_shift (a : Nat → ℚ) (n : Nat) (x : NDArray ℚ) (k : Nat) (v : ℚ)
    (hk : k < n) :
    dotF a n (x.add (shiftArr x k v)).data = dotF a n x.data + a k * v := by
  have h1 : dotF a n (x.add (shiftArr x k v)).data
      = dotF a n x.data + dotF a n (fun m => if m = k then v else 0) := by
    simp [dotF, NDArray.add, shiftArr, mul_add, Finset.sum_add_distrib]
  rw [h1, dotF_single a n k v hk]

theorem dotF_sub_shift (a : Nat → ℚ) (n : Nat) (x : NDArray ℚ) (k : Nat) (v : ℚ)
    (hk : k < n) :
    dotF a n (x.sub (shiftArr x k v)).data = dotF a n x.data - a k * v := by
  have h1 : dotF a n (x.sub (shiftArr x k v)).data
      = dotF a n x.data - dotF a n (fun m => if m = k then v else 0) := by
    simp [dotF, NDArray.sub, shiftArr, mul_sub, Finset.sum_sub_distrib]
  rw [h1, dotF_single a n k v hk]

/-- **C7** (confirmed).  For the linear function `f(x) = a · x`, the
first-order operator returns exactly `a` at every requested index, for
every `delta > 0` (exact arithmetic). -/
theorem C7_linear_exact (a : Nat → ℚ) (x : NDArray ℚ) (delta : ℚ)
    (idx : List (List Int))
    (hδ : 0 < delta)
    (hidx : ∀ t ∈ idx, t.length = x.ndim ∧
      ∀ p ∈ t.zip x.shape, 0 ≤ p.1 ∧ p.1 < (p.2 : Int)) :
    ∃ g, fd_first_order_centered (fLin a x.size) 0 delta [x] () (some idx) =
        Except.ok g ∧
      ∀ t ∈ idx, ∀ k, flatBase x.shape t = some (k, 1) → g.data k = a k := by
  have hδ' : ¬ delta ≤ 0 := not_le.mpr hδ
  have hδ0 : delta ≠ 0 := ne_of_gt hδ
  have hargnum : ¬ (0 : Int) > (([x].length : Nat) : Int) - 1 := by norm_num
  have hget : pyGet [x] 0 = some x := rfl
  have hres : ∀ t ∈ idx, ∃ k, flatBase x.shape t = some (k, 1) := by
    intro t ht
    exact flatBase_of_valid x.shape t (hidx t ht).1 (hidx t ht).2
  have hval : validateIdx x.ndim x.shape idx = none := by
    apply validateIdx_none_of
    intro t ht
    refine ⟨(hidx t ht).1, anyGtBounds_eq_false _ _ ?_⟩
    intro p hp
    have := (hidx t ht).2 p hp
    omega
  obtain ⟨g, hg, -, hin, -⟩ :=
    fdFirstLoop_spec (fLin a x.size) 0 delta [x] () x idx (zerosLike x) hres
  refine ⟨g, ?_, ?_⟩
  · simp only [fd_first_order_centered, if_neg hargnum, if_neg hδ', hget, hval]
    exact hg
  · intro t ht k hk
    have hkn : k < x.size := by
      have := flatBase_le_prod x.shape t k 1 hk
      simp only [NDArray.size]
      omega
    rw [hin k ⟨t, ht, hk⟩]
    have hcall : ∀ y : NDArray ℚ, callArgs [x] 0 y = [y] := by
      intro y
      simp [callArgs, pySliceTo, pySliceFrom]
    simp only [fdStencil, addAt_zerosLike, hcall, fLin, List.headD]
    rw [dotF_add_shift a x.size x k ((1/2 : ℚ) * delta) hkn,
      dotF_sub_shift a x.size x k ((1/2 : ℚ) * delta) hkn]
    rw [smul_eq_mul]
    field_simp

/-- **C7** (witness at a concrete input). -/
theorem C7_witness :
    ∃ g, fd_first_order_centered (fLin (fun m => (m : ℚ) + 5) xConcrete.size)
        0 1 [xConcrete] () (some [[1]]) = Except.ok g ∧
      ∀ t ∈ ([[1]] : List (List Int)), ∀ k, flatBase xConcrete.shape t = some (k, 1) →
        g.data k = (fun m => (m : ℚ) + 5) k := by
  exact C7_linear_exact (fun m => (m : ℚ) + 5) xConcrete 1 [[1]]
    (by norm_num) (by decide)

/-- **C8** (confirmed).  For distinct index tuples `i ≠ j` passing
validation and resolving under numpy indexing, the off-diagonal
four-point cross stencil is symmetric: calling the second-order operator
with `idx = [j, i]` returns exactly the same value as with
`idx = [i, j]`, for every `f` (exact arithmetic). -/
theorem C8_cross_symmetry {α K : Type} [AddCommGroup α] [Module ℚ α]
    (f : List (NDArray ℚ) → K → α) (argnum : Int) (delta : ℚ)
    (args : List (NDArray ℚ)) (kwargs : K) (x : NDArray ℚ)
    (i j : List Int) (pi pj : Nat × Nat)
    (hargnum : ¬ argnum > (args.length : Int) - 1)
    (hget : pyGet args argnum = some x)
    (hδ : 0 < delta)
    (hi : i.length = x.ndim ∧ anyGtBounds x.shape i = false)
    (hj : j.length = x.ndim ∧ anyGtBounds x.shape j = false)
    (hpi : flatBase x.shape i = some pi)
    (hpj : flatBase x.shape j = some pj)
    (hne : i ≠ j) :
    fd_second_order_centered f argnum delta args kwargs (some [i, j]) =
      fd_second_order_centered f argnum delta args kwargs (some [j, i]) := by
  have hδ' : ¬ delta ≤ 0 := not_le.mpr hδ
  have hlen2 : ¬ (([i, j] : List (List Int)).length > 2) := by norm_num
  have hlen2' : ¬ (([j, i] : List (List Int)).length > 2) := by norm_num
  have hvalij : validateIdx x.ndim x.shape [i, j] = none := by
    apply validateIdx_none_of
    intro t ht
    simp only [List.mem_cons, List.not_mem_nil, or_false] at ht
    rcases ht with rfl | rfl
    · exact hi
    · exact hj
  have hvalji : validateIdx x.ndim x.shape [j, i] = none := by
    apply validateIdx_none_of
    intro t ht
    simp only [List.mem_cons, List.not_mem_nil, or_false] at ht
    rcases ht with rfl | rfl
    · exact hj
    · exact hi
  have hne' : j ≠ i := Ne.symm hne
  simp only [fd_second_order_centered, if_neg hargnum, if_neg hδ', hget,
    if_neg hlen2, if_neg hlen2', hvalij, hvalji, if_neg hne, if_neg hne', hpi, hpj]
  congr 1
  rw [NDArray.add_add_swap x (addAt (zerosLike x) pi ((1/2 : ℚ) * delta))
        (addAt (zerosLike x) pj ((1/2 : ℚ) * delta)),
      NDArray.sub_add_swap x (addAt (zerosLike x) pi ((1/2 : ℚ) * delta))
        (addAt (zerosLike x) pj ((1/2 : ℚ) * delta)),
      NDArray.sub_sub_swap x (addAt (zerosLike x) pi ((1/2 : ℚ) * delta))
        (addAt (zerosLike x) pj ((1/2 : ℚ) * delta)),
      NDArray.sub_add_swap x (addAt (zerosLike x) pj ((1/2 : ℚ) * delta))
        (addAt (zerosLike x) pi ((1/2 : ℚ) * delta))]
  congr 1
  abel

/-- **C8** (witness at a concrete input). -/
theorem C8_witness :
    fd_second_order_centered fProd 0 1 [xConcrete] () (some [[0], [1]]) =
      fd_second_order_centered fProd 0 1 [xConcrete] () (some [[1], [0]]) := by
  exact C8_cross_symmetry fProd 0 1 [xConcrete] () xConcrete [0] [1] (0, 1) (1, 1)
    (by norm_num) rfl (by norm_num) (by decide) (by decide) (by decide) (by decide)
    (by decide)

/-- **C9** (counterexample).  The claim that a correct-length tuple with
*any* negative component never raises is false: a component below
`-size` for its axis (here `-3` on an axis of size 2) passes validation
but fails during evaluation with an index error (which is not a value
error). -/
theorem C9_counterexample :
    resErr (fd_first_order_centered fSum 0 1 [xConcrete] () (some [[-3]])) =
      some FDError.indexError ∧ FDError.indexError.isValueErr = false := by
  constructor
  · decide
  · rfl

theorem NDArray.sub_add_cancel_self (x s : NDArray ℚ) : (x.sub s).add s = x := by
  refine NDArray.ext_data ?_ ?_
  · rfl
  intro k
  simp only [NDArray.add, NDArray.sub]
  ring

theorem NDArray.add_sub_cancel_self (x s : NDArray ℚ) : (x.add s).sub s = x := by
  refine NDArray.ext_data ?_ ?_
  · rfl
  intro k
  simp only [NDArray.add, NDArray.sub]
  ring

/-- Applying the same one-block perturbation twice doubles it:
two half-steps at one cell amount to one full step there. -/
theorem addAt_zero_double_add (x : NDArray ℚ) (sc : Nat × Nat) (v : ℚ) :
    (x.add (addAt (zerosLike x) sc v)).add (addAt (zerosLike x) sc v) =
      x.add (addAt (zerosLike x) sc (v + v)) := by
  refine NDArray.ext_data ?_ ?_
  · rfl
  intro k
  simp only [NDArray.add, addAt, zerosLike]
  by_cases h : sc.1 ≤ k ∧ k < sc.1 + sc.2
  · simp only [if_pos h]
    ring
  · simp only [if_neg h]
    ring

theorem addAt_zero_double_sub (x : NDArray ℚ) (sc : Nat × Nat) (v : ℚ) :
    (x.sub (addAt (zerosLike x) sc v)).sub (addAt (zerosLike x) sc v) =
      x.sub (addAt (zerosLike x) sc (v + v)) := by
  refine NDArray.ext_data ?_ ?_
  · rfl
  intro k
  simp only [NDArray.sub, addAt, zerosLike]
  by_cases h : sc.1 ≤ k ∧ k < sc.1 + sc.2
  · simp only [if_pos h]
    ring
  · simp only [if_neg h]
    ring

/-- **C9** (amended).  The bounds validation checks only the upper
bound, so no negative component is ever rejected by validation; a
correct-length tuple whose components lie in `[-size, size)` per axis is
accepted and addresses the array with Python wrap-around: the whole call
is equal to the call with the componentwise wrapped (non-negative)
index, for both operators.  (When two distinct tuples wrap to the same
cell the original call runs the off-diagonal stencil and the wrapped
call the diagonal one, but the two half-step perturbations at one cell
compose to the full-step perturbation, so the values still agree.
Components below `-size` instead fail at evaluation with an index
error, as the counterexample shows.) -/
theorem C9_negative_idx {α K : Type} [AddCommGroup α] [Module ℚ α] :
    (∀ (ndim : Nat) (shape : List Nat) (idx : List (List Int)),
      (∀ t ∈ idx, t.length = ndim ∧ ∀ p ∈ t.zip shape, p.1 < 0 ∨ p.1 < (p.2 : Int)) →
      validateIdx ndim shape idx = none)
    ∧ (∀ (f : List (NDArray ℚ) → K → α) (argnum : Int) (delta : ℚ)
        (args : List (NDArray ℚ)) (kwargs : K) (x : NDArray ℚ)
        (idx : List (List Int)),
      pyGet args argnum = some x → ¬ argnum > (args.length : Int) - 1 → 0 < delta →
      (∀ t ∈ idx, t.length = x.ndim ∧
        ∀ p ∈ t.zip x.shape, -(p.2 : Int) ≤ p.1 ∧ p.1 < (p.2 : Int)) →
      fd_first_order_centered f argnum delta args kwargs (some idx) =
        fd_first_order_centered f argnum delta args kwargs
          (some (idx.map (wrapTuple x.shape))))
    ∧ (∀ (f : List (NDArray ℚ) → K → α) (argnum : Int) (delta : ℚ)
        (args : List (NDArray ℚ)) (kwargs : K) (x : NDArray ℚ)
        (i j : List Int),
      pyGet args argnum = some x → ¬ argnum > (args.length : Int) - 1 → 0 < delta →
      (∀ t ∈ ([i, j] : List (List Int)), t.length = x.ndim ∧
        ∀ p ∈ t.zip x.shape, -(p.2 : Int) ≤ p.1 ∧ p.1 < (p.2 : Int)) →
      fd_second_order_centered f argnum delta args kwargs (some [i, j]) =
        fd_second_order_centered f argnum delta args kwargs
          (some [wrapTuple x.shape i, wrapTuple x.shape j])) := by
  have hvnone : ∀ (ndim : Nat) (shape : List Nat) (idx : List (List Int)),
      (∀ t ∈ idx, t.length = ndim ∧ ∀ p ∈ t.zip shape, p.1 < 0 ∨ p.1 < (p.2 : Int)) →
      validateIdx ndim shape idx = none := by
    intro ndim shape idx h
    apply validateIdx_none_of
    intro t ht
    refine ⟨(h t ht).1, anyGtBounds_eq_false _ _ ?_⟩
    intro p hp
    have h2 := (h t ht).2 p hp
    have h3 : (0 : Int) ≤ (p.2 : Int) := Int.ofNat_nonneg _
    omega
  have hwrapval : ∀ (x : NDArray ℚ) (idx : List (List Int)),
      (∀ t ∈ idx, t.length = x.ndim ∧
        ∀ p ∈ t.zip x.shape, -(p.2 : Int) ≤ p.1 ∧ p.1 < (p.2 : Int)) →
      validateIdx x.ndim x.shape (idx.map (wrapTuple x.shape)) = none := by
    intro x idx h
    apply validateIdx_none_of
    intro t' ht'
    obtain ⟨t, ht, rfl⟩ := List.mem_map.mp ht'
    have hlen : t.length ≤ x.shape.length := by
      have := (h t ht).1
      simp only [NDArray.ndim] at this
      omega
    refine ⟨by rw [wrapTuple_length x.shape t hlen]; exact (h t ht).1,
      anyGtBounds_eq_false _ _ ?_⟩
    intro p hp
    have := wrapTuple_valid x.shape t (h t ht).2 p hp
    omega
  have hfb : ∀ (x : NDArray ℚ) (t : List Int),
      t.length = x.ndim →
      (∀ p ∈ t.zip x.shape, -(p.2 : Int) ≤ p.1 ∧ p.1 < (p.2 : Int)) →
      flatBase x.shape t = flatBase x.shape (wrapTuple x.shape t) := by
    intro x t hlen h
    apply flatBase_wrap
    · simp only [NDArray.ndim] at hlen
      omega
    · intro p hp
      exact (h p hp).1
  refine ⟨hvnone, ?_, ?_⟩
  · intro f argnum delta args kwargs x idx hget hargnum hδ hidx
    have hδ' : ¬ delta ≤ 0 := not_le.mpr hδ
    have hval : validateIdx x.ndim x.shape idx = none := by
      apply hvnone
      intro t ht
      exact ⟨(hidx t ht).1, fun p hp => Or.inr ((hidx t ht).2 p hp).2⟩
    have hvalw := hwrapval x idx hidx
    simp only [fd_first_order_centered, if_neg hargnum, if_neg hδ', hget, hval, hvalw]
    exact fdFirstLoop_congr f argnum delta args kwargs x (wrapTuple x.shape) idx
      (zerosLike x) (fun t ht => hfb x t (hidx t ht).1 (hidx t ht).2)
  · intro f argnum delta args kwargs x i j hget hargnum hδ hij
    have hδ' : ¬ delta ≤ 0 := not_le.mpr hδ
    have hi := hij i (by simp)
    have hj := hij j (by simp)
    have hval : validateIdx x.ndim x.shape [i, j] = none := by
      apply hvnone
      intro t ht
      exact ⟨(hij t ht).1, fun p hp => Or.inr ((hij t ht).2 p hp).2⟩
    have hvalw : validateIdx x.ndim x.shape
        [wrapTuple x.shape i, wrapTuple x.shape j] = none := by
      have := hwrapval x [i, j] hij
      simpa using this
    have hlen2 : ¬ (([i, j] : List (List Int)).length > 2) := by norm_num
    have hlen2' : ¬ (([wrapTuple x.shape i, wrapTuple x.shape j] :
        List (List Int)).length > 2) := by norm_num
    have hfi := hfb x i hi.1 hi.2
    have hfj := hfb x j hj.1 hj.2
    by_cases hij' : i = j
    · subst hij'
      simp only [fd_second_order_centered, if_neg hargnum, if_neg hδ', hget,
        if_neg hlen2, if_neg hlen2', hval, hvalw, if_pos rfl, ← hfi]
    · by_cases hw : wrapTuple x.shape i = wrapTuple x.shape j
      · -- Distinct tuples wrapping to the same cell: the original call
        -- runs the off-diagonal stencil with both half-shifts at that
        -- cell, the wrapped call the diagonal full-shift stencil; the
        -- values coincide.
        obtain ⟨ki, hkiw⟩ : ∃ k, flatBase x.shape (wrapTuple x.shape i) = some (k, 1) := by
          have hleni : i.length ≤ x.shape.length := by
            have h1 := hi.1
            simp only [NDArray.ndim] at h1
            omega
          apply flatBase_of_valid
          · rw [wrapTuple_length x.shape i hleni]
            have h1 := hi.1
            simp only [NDArray.ndim] at h1
            exact h1
          · exact wrapTuple_valid x.shape i hi.2
        have hki : flatBase x.shape i = some (ki, 1) := by
          rw [hfi]
          exact hkiw
        have hkj : flatBase x.shape j = some (ki, 1) := by
          rw [hfj, ← hw]
          exact hkiw
        have hvv : (1/2 : ℚ) * delta + (1/2 : ℚ) * delta = delta := by ring
        simp only [fd_second_order_centered, if_neg hargnum, if_neg hδ', hget,
          if_neg hlen2, if_neg hlen2', hval, hvalw, if_neg hij', if_pos hw,
          hkiw, hki, hkj]
        rw [NDArray.sub_add_cancel_self, NDArray.add_sub_cancel_self,
          addAt_zero_double_add, addAt_zero_double_sub, hvv]
        congr 1
        congr 1
        rw [two_smul ℚ]
        abel
      · simp only [fd_second_order_centered, if_neg hargnum, if_neg hδ', hget,
          if_neg hlen2, if_neg hlen2', hval, hvalw, if_neg hij', if_neg hw,
          ← hfi, ← hfj]

/-- **C9** (witness for the amended theorem at concrete inputs: index
`-1` on an axis of size 2 behaves as index `1` for the first-order
operator, and the second-order call with the aliasing pair
`[[-1], [1]]` — distinct tuples wrapping to the same cell — equals the
wrapped call `[[1], [1]]`). -/
theorem C9_witness :
    (fd_first_order_centered fSum 0 1 [xConcrete] () (some [[-1]]) =
      fd_first_order_centered fSum 0 1 [xConcrete] ()
        (some (([[-1]] : List (List Int)).map (wrapTuple xConcrete.shape))))
    ∧ (fd_second_order_centered fSum 0 1 [xConcrete] () (some [[-1], [1]]) =
      fd_second_order_centered fSum 0 1 [xConcrete] ()
        (some [wrapTuple xConcrete.shape [-1], wrapTuple xConcrete.shape [1]])) := by
  constructor
  · exact (C9_negative_idx (α := ℚ) (K := Unit)).2.1 fSum 0 1 [xConcrete] () xConcrete
      [[-1]] rfl (by norm_num) (by norm_num) (by decide)
  · exact (C9_negative_idx (α := ℚ) (K := Unit)).2.2 fSum 0 1 [xConcrete] () xConcrete
      [-1] [1] rfl (by norm_num) (by norm_num) (by decide)
